import Mathlib

/-!
API gateway (`main.go`): routing and forwarding.

A shallow embedding of the gateway's request handling: the `strings` helpers the
handler uses (`Trim`, `Split`, `Join`), Go maps (the service table and
`http.Header`), the middleware chain installed with `r.Use`, the two administrative
handlers, the catch-all proxy handler registered with `NoRoute`, the `ModifyResponse`
hook and `keys`.

Go strings are byte strings. They are modelled as lists of characters: the only
character the code inspects is "/" (one byte, never part of a longer UTF-8
sequence), so splitting and trimming on characters and on bytes agree.
-/

namespace Gateway

/-- A Go `string`. -/
abbrev Str := List Char

/-! ## `strings` -/

/-- Go `strings.TrimRight(s, cutset)`: drop the trailing characters that occur in `cutset`. -/
def TrimRight (s cutset : Str) : Str :=
  s.rdropWhile (fun c => decide (c ∈ cutset))

/-- Go `strings.TrimLeft(s, cutset)`: drop the leading characters that occur in `cutset`. -/
def TrimLeft (s cutset : Str) : Str :=
  s.dropWhile (fun c => decide (c ∈ cutset))

/-- Go `strings.Trim(s, cutset)`: the library trims on the right, then on the left. -/
def Trim (s cutset : Str) : Str :=
  TrimLeft (TrimRight s cutset) cutset

/-- Go `strings.Split(s, sep)` for a one-character separator (the handler calls it with
"/"): the pieces of `s` between the occurrences of `sep`; one more piece than there are
separators, so never an empty slice (`Split("", "/")` is `[""]`). -/
def Split : Str → Char → List Str
  | [], _ => [[]]
  | c :: cs, sep =>
    if c = sep then [] :: Split cs sep
    else
      match Split cs sep with
      | [] => [[c]]
      | p :: ps => (c :: p) :: ps

/-- Go `strings.Join(elems, sep)`. -/
def Join : List Str → Str → Str
  | [], _ => []
  | [a], _ => a
  | a :: b :: rest, sep => a ++ sep ++ Join (b :: rest) sep

/-! ## Go maps -/

/-- A Go `map[string]V`: finitely many entries, no key twice. Go leaves the iteration
order of a map unspecified; the order of `entries` stands for whatever order the runtime
picks, and nothing below depends on it. -/
structure GoMap (V : Type) where
  entries : List (Str × V)
  nodup : (entries.map Prod.fst).Nodup

namespace GoMap

variable {V : Type}

instance [DecidableEq V] : DecidableEq (GoMap V) := fun a b =>
  decidable_of_iff (a.entries = b.entries) (by cases a; cases b; simp)

/-- Lookup in a list of entries. -/
def lookup : List (Str × V) → Str → Option V
  | [], _ => none
  | e :: rest, k => if e.1 = k then some e.2 else lookup rest k

/-- The comma-ok index expression `v, exists := m[k]`. -/
def get (m : GoMap V) (k : Str) : Option V :=
  lookup m.entries k

/-- The builtin `delete(m, k)`. -/
def delete (m : GoMap V) (k : Str) : GoMap V where
  entries := m.entries.filter (fun e => decide (e.1 ≠ k))
  nodup := (List.filter_sublist m.entries).map Prod.fst |>.nodup m.nodup

/-- The assignment `m[k] = v`. -/
def set (m : GoMap V) (k : Str) (v : V) : GoMap V where
  entries := (k, v) :: (m.delete k).entries
  nodup := by
    refine List.nodup_cons.mpr ⟨?_, (m.delete k).nodup⟩
    intro h
    obtain ⟨e, he, hk⟩ := List.mem_map.mp h
    have hne := (List.mem_filter.mp he).2
    exact of_decide_eq_true hne hk

/-- The sequence of entries a `for k, v := range m` loop visits. -/
def range (m : GoMap V) : List (Str × V) :=
  m.entries

end GoMap

/-- The function `keys` of `main.go`: every key the loop visits is appended to the slice. -/
def keys (m : GoMap Str) : List Str :=
  m.range.foldl (fun keys kv => keys ++ [kv.1]) []

/-- The service table built in `main`. -/
def services : GoMap Str where
  entries :=
    [ ("user".toList, "http://localhost:8081/user".toList),
      ("sprint".toList, "http://localhost:8083/sprint".toList),
      ("task".toList, "http://localhost:8082/task".toList) ]
  nodup := by decide

/-! ## HTTP data -/

/-- Go `http.Header`, a `map[string][]string`. -/
abbrev Header := GoMap (List Str)

/-- Go `Header.Set(key, value)`: the entry for `key` becomes the single value `value`.
The library first brings `key` into canonical MIME form; every key `main.go` passes is
already in that form, so the step is the identity here. -/
def Header.Set (h : Header) (key value : Str) : Header :=
  GoMap.set h key [value]

/-- Go `Header.Del(key)`: the entry for `key` is removed (same remark on the key). -/
def Header.Del (h : Header) (key : Str) : Header :=
  GoMap.delete h key

/-- Go `Header.Get(key)`: the first value stored for `key`, the empty string when there is
none (same remark on the key). -/
def Header.Get (h : Header) (key : Str) : Str :=
  match GoMap.get h key with
  | some (v :: _) => v
  | _ => []

/-- The fields of the inbound `*http.Request` the gateway touches or passes on. -/
structure Request where
  Method : Str
  /-- The field `URL.Path`. -/
  Path : Str
  RawQuery : Str
  Host : Str
  Header : Header
  RemoteAddr : Str
  Body : Str
  deriving DecidableEq

/-- The fields of a parsed `*url.URL`. -/
structure URL where
  Scheme : Str
  Host : Str
  Path : Str
  deriving DecidableEq

/-- The fields of a backend `*http.Response`. -/
structure Response where
  StatusCode : Nat
  Header : Header
  Body : Str
  deriving DecidableEq

/-- A value stored in a `gin.H` object. -/
inductive Value where
  | str (s : Str)
  | strs (l : List Str)
  /-- The zero `time.Time`: what `c.GetTime("time")` returns, no handler or middleware of
  `main.go` ever storing the key "time" in the context. -/
  | zeroTime
  deriving DecidableEq

/-- A `gin.H` literal, its fields in the order of the source. -/
abbrev H := List (Str × Value)

/-- What handling one request amounts to. -/
inductive Outcome where
  /-- The call `c.JSON(code, obj)`: the gateway answers by itself. -/
  | JSON (code : Nat) (obj : H)
  /-- The call `proxy.ServeHTTP(ctx.Writer, ctx.Request)` on the single-host reverse proxy
  built for `target`, with the request as the handler has rewritten it. -/
  | ServeHTTP (target : URL) (req : Request)
  /-- The router answers with a redirect to `location`; no handler runs. -/
  | Redirect (code : Nat) (location : Str)
  /-- The call `c.AbortWithStatus(code)` of a middleware: the status is written without a
  body and nothing further down the chain runs. -/
  | AbortWithStatus (code : Nat)
  deriving DecidableEq

/-! ## The handlers of `main` -/

/-- The handler registered with `r.GET("/health", ...)`. -/
def healthHandler (services : GoMap Str) : Outcome :=
  .JSON 200
    [ ("status".toList, .str "gateway is healthy".toList),
      ("time".toList, .zeroTime),
      ("services".toList, .strs (keys services)) ]

/-- The handler registered with `r.GET("/", ...)`. -/
def rootHandler (services : GoMap Str) : Outcome :=
  .JSON 200
    [ ("message".toList, .str "Welcome to API Gateway".toList),
      ("usage".toList, .str "POST/GET /<service-name>/path".toList),
      ("example".toList, .str "/user-service/profile".toList),
      ("health".toList, .str "/health".toList),
      ("services".toList, .strs (keys services)) ]

/-- The hook `proxy.ModifyResponse`: five deletions on the response header, then
`return nil` (`Except.ok`; the hook has no path that returns an error). -/
def ModifyResponse (resp : Response) : Except Str Response :=
  let h1 := resp.Header.Del "Access-Control-Allow-Origin".toList
  let h2 := h1.Del "Access-Control-Allow-Credentials".toList
  let h3 := h2.Del "Access-Control-Allow-Headers".toList
  let h4 := h3.Del "Access-Control-Allow-Methods".toList
  let h5 := h4.Del "Access-Control-Expose-Headers".toList
  .ok { resp with Header := h5 }

/-- The handler registered with `r.NoRoute(...)`, the catch-all proxy.

`services` is the table the closure captures. `Parse` stands for `url.Parse` and
`ClientIP` for gin's `ctx.ClientIP()`, library functions taken as parameters; `ClientIP`
reads the request as it is when line 103 runs. The diagnostic `fmt.Printf` is left out. -/
def noRouteHandler (services : GoMap Str) (Parse : Str → Option URL)
    (ClientIP : Request → Str) (req : Request) : Outcome :=
  let path := Trim req.Path "/".toList
  let parts := Split path '/'
  if parts.length = 0 ∨ parts.head? = some [] then
    .JSON 400 [("error".toList, .str "service name required".toList)]
  else
    let serviceName := parts.headD []
    match services.get serviceName with
    | none =>
      .JSON 404
        [ ("error".toList, .str "service not found".toList),
          ("requested".toList, .str serviceName),
          ("available".toList, .strs (keys services)) ]
    | some targetURL =>
      match Parse targetURL with
      | none => .JSON 500 [("error".toList, .str "invalid backend URL".toList)]
      | some target =>
        let r1 : Request :=
          if parts.length > 1 then
            { req with Path := "/".toList ++ Join (parts.drop 1) "/".toList }
          else
            { req with Path := "/".toList }
        let r2 : Request := { r1 with Host := target.Host }
        let r3 : Request := { r2 with Header := r2.Header.Set "X-Forwarded-Host".toList r2.Host }
        let r4 : Request := { r3 with Header := r3.Header.Set "X-Forwarded-Proto".toList "http".toList }
        let r5 : Request := { r4 with Header := r4.Header.Set "X-Forwarded-For".toList (ClientIP r4) }
        .ServeHTTP target r5

/-! ## The middleware chain

`main` installs four middleware with `r.Use` (lines 17 to 26) before it registers any
handler, so they run, in that order, in front of the two administrative handlers and in
front of the `NoRoute` handler alike. `gin.Logger()` writes a log line and
`gin.Recovery()` turns a panic further down the chain into a 500; no handler of `main`
panics, and neither changes what the client is sent. The two CORS middleware can end the
chain. They also add response headers of their own (`Access-Control-*`, `Vary`); an
`Outcome` records the status and body of the answer, not its header. -/

/-- The middleware of `gin-contrib/cors` (`applyCors`), as far as it decides whether the
chain goes on: `none` when it does, the status the middleware aborts with otherwise.

A request without an `Origin` header, or whose `Origin` names the host the request was
sent to, is let through. Any other request is aborted with 403 unless its origin is
valid (every origin is when `allowAllOrigins` is set, otherwise the ones listed in
`allowOrigins`); a request with a valid origin and the method OPTIONS is answered as a
preflight and aborted with 204. -/
def applyCors (allowAllOrigins : Bool) (allowOrigins : List Str) (req : Request) : Option Nat :=
  let origin := req.Header.Get "Origin".toList
  if origin.length = 0 then none
  else if origin = "http://".toList ++ req.Host ∨ origin = "https://".toList ++ req.Host then none
  else if ¬ (allowAllOrigins = true ∨ origin ∈ allowOrigins) then some 403
  else if req.Method = "OPTIONS".toList then some 204
  else none

/-- The list `AllowOrigins` of the configuration passed to `cors.New` in `main`. -/
def AllowOrigins : List Str :=
  ["http://localhost:5173".toList, "http://localhost:5174".toList]

/-- The chain `r.Use(gin.Logger())`, `r.Use(gin.Recovery())`, `r.Use(cors.Default())`,
`r.Use(cors.New(...))`: `cors.Default()` allows every origin, `cors.New(...)` the two
origins of `AllowOrigins`; the second runs only when the first has not aborted. -/
def middleware (req : Request) : Option Nat :=
  match applyCors true [] req with
  | some code => some code
  | none => applyCors false AllowOrigins req

/-- A handler behind the middleware chain: the handler's outcome when the chain lets the
request through, the abort otherwise. -/
def chain (req : Request) (handler : Outcome) : Outcome :=
  match middleware req with
  | some code => .AbortWithStatus code
  | none => handler

/-! ## The router

`r.GET` registers a handler for the method GET and one exact path; `r.NoRoute` registers
the handler of every request the route tree does not match. -/

/-- The paths registered with `r.GET`. -/
def getRoutes : List Str :=
  ["/health".toList, "/".toList]

/-- The trailing-slash recommendation of the route lookup, for the static routes
`getRoutes`: the path is not registered, but the path with one more or one less trailing
"/" is. `gin.New()` leaves `RedirectTrailingSlash` switched on, and the engine then
answers such a GET request with a redirect instead of calling the `NoRoute` handler. -/
def tsr (path : Str) : Bool :=
  decide (path ∉ getRoutes) &&
    (decide (path ++ "/".toList ∈ getRoutes) ||
      getRoutes.any (fun r => decide (path = r ++ "/".toList)))

/-- The target of the trailing-slash redirect: the path with the trailing "/" removed when
it has one (and is longer than one character), with a "/" appended otherwise. -/
def redirectTrailingSlash (path : Str) : Outcome :=
  if 1 < path.length ∧ path.getLast? = some '/' then .Redirect 301 path.dropLast
  else .Redirect 301 (path ++ "/".toList)

/-- The dispatch of the engine (`handleHTTPRequest`) for the routes of `main`: only the
method GET has a route tree; a request of any other method goes to the `NoRoute`
handler whatever its path. The handler selected runs behind the middleware chain; the
trailing-slash redirect is the engine's own answer and runs no middleware. -/
def handleHTTPRequest (services : GoMap Str) (Parse : Str → Option URL)
    (ClientIP : Request → Str) (req : Request) : Outcome :=
  if req.Method = "GET".toList then
    if req.Path = "/health".toList then chain req (healthHandler services)
    else if req.Path = "/".toList then chain req (rootHandler services)
    else if tsr req.Path then redirectTrailingSlash req.Path
    else chain req (noRouteHandler services Parse ClientIP req)
  else chain req (noRouteHandler services Parse ClientIP req)

/-! ## Vocabulary of the statements -/

/-- The first path segment of a request: the first piece of the trimmed path. -/
def firstSegment (req : Request) : Str :=
  (Split (Trim req.Path "/".toList) '/').headD []

/-- The request the proxy handler hands to the reverse proxy, spelt out: `req` with the
path `path`, the host of `target`, and the three forwarding headers set in the order of
the source. -/
def forwarded (ClientIP : Request → Str) (req : Request) (target : URL) (path : Str) : Request :=
  let r : Request :=
    { req with
      Path := path
      Host := target.Host
      Header :=
        (req.Header.Set "X-Forwarded-Host".toList target.Host).Set
          "X-Forwarded-Proto".toList "http".toList }
  { r with Header := r.Header.Set "X-Forwarded-For".toList (ClientIP r) }

/-- The routing outcome of the proxy handler: the answer it gives by itself, or the target
and the outbound path of the request it forwards. -/
inductive Routing where
  | answer (code : Nat) (obj : H)
  | forward (target : URL) (path : Str)
  | redirect (code : Nat) (location : Str)
  | abort (code : Nat)
  deriving DecidableEq

/-- The routing outcome of an outcome. -/
def Outcome.routing : Outcome → Routing
  | .JSON code obj => .answer code obj
  | .ServeHTTP target req => .forward target req.Path
  | .Redirect code location => .redirect code location
  | .AbortWithStatus code => .abort code

/-- How many times the name `k` occurs in the slice `l`. -/
def occurrences (k : Str) (l : List Str) : Nat :=
  (l.filter (fun x => decide (x = k))).length

/-- The five response headers named in the `ModifyResponse` hook. -/
def corsHeaders : List Str :=
  [ "Access-Control-Allow-Origin".toList,
    "Access-Control-Allow-Credentials".toList,
    "Access-Control-Allow-Headers".toList,
    "Access-Control-Allow-Methods".toList,
    "Access-Control-Expose-Headers".toList ]

/-- The body of the 400 answer. -/
def serviceNameRequired : H :=
  [("error".toList, .str "service name required".toList)]

/-- The body of the 404 answer. -/
def serviceNotFound (requested : Str) (available : List Str) : H :=
  [ ("error".toList, .str "service not found".toList),
    ("requested".toList, .str requested),
    ("available".toList, .strs available) ]

/-! ## Sample inputs for the concrete evaluations -/

/-- A stand-in for `url.Parse` on URLs of the shape `scheme://host/path`. -/
def sampleParse (u : Str) : Option URL :=
  match Split u '/' with
  | scheme :: [] :: host :: path =>
    if scheme.getLast? = some ':' then
      some ⟨scheme.dropLast, host, "/".toList ++ Join path "/".toList⟩
    else none
  | _ => none

/-- A stand-in for `ctx.ClientIP()`: the host part of `RemoteAddr`. -/
def sampleClientIP (req : Request) : Str :=
  (Split req.RemoteAddr ':').headD []

/-- A request from 10.0.0.7 that already carries an `X-Forwarded-For` header. -/
def sampleRequest (method path : String) : Request where
  Method := method.toList
  Path := path.toList
  RawQuery := []
  Host := "localhost:8080".toList
  Header :=
    ⟨[ ("X-Forwarded-For".toList, ["1.1.1.1".toList, "2.2.2.2".toList]),
       ("Accept".toList, ["*/*".toList]) ], by decide⟩
  RemoteAddr := "10.0.0.7:5555".toList
  Body := []

/-- The same request sent by a page of the origin `origin`. -/
def sampleRequestFrom (origin method path : String) : Request :=
  { sampleRequest method path with
    Header := (sampleRequest method path).Header.Set "Origin".toList origin.toList }

/-- A backend response that sets CORS headers of its own. -/
def sampleResponse : Response where
  StatusCode := 200
  Header :=
    ⟨[ ("Content-Type".toList, ["application/json".toList]),
       ("Access-Control-Allow-Origin".toList, ["*".toList]),
       ("Access-Control-Expose-Headers".toList, ["trace_id".toList]) ], by decide⟩
  Body := "ok".toList

/-! ## Lemmas on `Split`, `Join` and `Trim` -/

theorem Split_ne_nil (s : Str) (sep : Char) : Split s sep ≠ [] := by
  cases s with
  | nil => simp [Split]
  | cons c cs =>
    unfold Split
    split
    · simp
    · split <;> simp

theorem Split_cons_sep (cs : Str) (sep : Char) : Split (sep :: cs) sep = [] :: Split cs sep := by
  simp [Split]

theorem Split_cons_ne {c sep : Char} (cs : Str) (h : c ≠ sep) :
    Split (c :: cs) sep = (c :: (Split cs sep).headD []) :: (Split cs sep).tail := by
  rw [Split, if_neg h]
  rcases hs : Split cs sep with _ | ⟨p, ps⟩
  · exact absurd hs (Split_ne_nil cs sep)
  · simp

/-- Joining the pieces of a split with the separator gives the string back. -/
theorem Join_Split (s : Str) (sep : Char) : Join (Split s sep) [sep] = s := by
  induction s with
  | nil => simp [Split, Join]
  | cons c cs ih =>
    rcases hs : Split cs sep with _ | ⟨p, ps⟩
    · exact absurd hs (Split_ne_nil cs sep)
    · rw [hs] at ih
      by_cases h : c = sep
      · subst h
        rw [Split_cons_sep, hs, Join, ih]
        simp
      · rw [Split_cons_ne cs h, hs]
        cases ps with
        | nil => simpa [Join] using ih
        | cons q qs =>
          simp only [List.headD_cons, List.tail_cons, Join] at ih ⊢
          simp [← ih]

/-- No piece of a split contains the separator. -/
theorem Split_not_mem (s : Str) (sep : Char) : ∀ p ∈ Split s sep, sep ∉ p := by
  induction s with
  | nil => simp [Split]
  | cons c cs ih =>
    rcases hs : Split cs sep with _ | ⟨q, qs⟩
    · exact absurd hs (Split_ne_nil cs sep)
    · rw [hs] at ih
      by_cases h : c = sep
      · subst h
        rw [Split_cons_sep, hs]
        intro p hp
        rcases List.mem_cons.mp hp with rfl | hp
        · simp
        · exact ih p hp
      · rw [Split_cons_ne cs h, hs]
        intro p hp
        simp only [List.headD_cons, List.tail_cons, List.mem_cons] at hp
        rcases hp with rfl | hp
        · have := ih q (List.mem_cons_self _ _)
          simp only [List.mem_cons, not_or]
          exact ⟨fun e => h e.symm, this⟩
        · exact ih p (List.mem_cons_of_mem _ hp)

/-- A string without the separator is its own single piece. -/
theorem Split_of_not_mem {a : Str} {sep : Char} (h : sep ∉ a) : Split a sep = [a] := by
  induction a with
  | nil => simp [Split]
  | cons c cs ih =>
    simp only [List.mem_cons, not_or] at h
    rw [Split_cons_ne cs (fun e => h.1 e.symm), ih h.2]
    simp

/-- The first piece ends at the first separator. -/
theorem Split_append_sep {a : Str} {sep : Char} (rest : Str) (h : sep ∉ a) :
    Split (a ++ sep :: rest) sep = a :: Split rest sep := by
  induction a with
  | nil => simp [Split_cons_sep]
  | cons c cs ih =>
    simp only [List.mem_cons, not_or] at h
    rw [List.cons_append, Split_cons_ne _ (fun e => h.1 e.symm), ih h.2]
    simp

/-- There is more than one piece exactly when the separator occurs. -/
theorem Split_length_gt_one_iff (s : Str) (sep : Char) :
    1 < (Split s sep).length ↔ sep ∈ s := by
  constructor
  · intro h
    by_contra hn
    rw [Split_of_not_mem hn] at h
    simp at h
  · intro h
    induction s with
    | nil => simp at h
    | cons c cs ih =>
      by_cases hc : c = sep
      · subst hc
        rw [Split_cons_sep]
        cases hb : Split cs c with
        | nil => exact absurd hb (Split_ne_nil cs c)
        | cons x xs => simp
      · have hmem : sep ∈ cs := by
          rcases List.mem_cons.mp h with e | e
          · exact absurd e.symm hc
          · exact e
        have ih := ih hmem
        rw [Split_cons_ne _ hc]
        rcases hb : Split cs sep with _ | ⟨x, xs⟩
        · exact absurd hb (Split_ne_nil _ _)
        · rw [hb] at ih
          simpa using ih

/-- The first piece is empty exactly when the string is empty or starts with the separator. -/
theorem Split_head_eq_nil_iff (s : Str) (sep : Char) :
    (Split s sep).head? = some [] ↔ s = [] ∨ s.head? = some sep := by
  cases s with
  | nil => simp [Split]
  | cons c cs =>
    by_cases h : c = sep
    · subst h
      simp [Split_cons_sep]
    · rw [Split_cons_ne cs h]
      simp [h]

/-- A trimmed string does not start with a character of the cutset. -/
theorem Trim_head (s cutset : Str) : ∀ c, (Trim s cutset).head? = some c → c ∉ cutset := by
  intro c hc
  have h := List.head?_dropWhile_not (fun c => decide (c ∈ cutset)) (TrimRight s cutset)
  unfold Trim TrimLeft at hc
  rw [hc] at h
  simpa using h

/-- Trimming on the right, across a concatenation. -/
theorem TrimRight_append (a b cutset : Str) :
    TrimRight (a ++ b) cutset =
      if TrimRight b cutset = [] then TrimRight a cutset else a ++ TrimRight b cutset := by
  unfold TrimRight List.rdropWhile
  rw [List.reverse_append, List.dropWhile_append]
  by_cases h : List.dropWhile (fun c => decide (c ∈ cutset)) b.reverse = []
  · simp [h]
  · simp [h]

/-- Trimming on the right leaves a string alone when its last character is not in the cutset. -/
theorem TrimRight_eq_self {s cutset : Str} (h : ∀ c, s.getLast? = some c → c ∉ cutset) :
    TrimRight s cutset = s := by
  unfold TrimRight
  rw [List.rdropWhile_eq_self_iff]
  intro hl
  have := h (s.getLast hl) (List.getLast?_eq_getLast _ hl)
  simpa using this

/-- Trimming on the left leaves a string alone when its first character is not in the cutset. -/
theorem TrimLeft_eq_self {s cutset : Str} (h : ∀ c, s.head? = some c → c ∉ cutset) :
    TrimLeft s cutset = s := by
  unfold TrimLeft
  cases s with
  | nil => rfl
  | cons c cs =>
    have := h c rfl
    simp [List.dropWhile_cons, this]


/-! ## Lemmas on maps -/

namespace GoMap

variable {V : Type}

theorem lookup_filter_ne (l : List (Str × V)) (k k' : Str) (h : k' ≠ k) :
    lookup (l.filter (fun e => decide (e.1 ≠ k))) k' = lookup l k' := by
  induction l with
  | nil => rfl
  | cons e rest ih =>
    rw [List.filter_cons]
    by_cases he : e.1 = k
    · have hne : ¬ e.1 = k' := fun e' => h (e'.symm.trans he)
      rw [if_neg (by simp [he]), ih]
      simp only [lookup, hne, if_false]
    · rw [if_pos (by simp [he])]
      by_cases hk : e.1 = k'
      · simp only [lookup, hk, if_true]
      · simp only [lookup, hk, if_false, ih]

theorem lookup_filter_eq (l : List (Str × V)) (k : Str) :
    lookup (l.filter (fun e => decide (e.1 ≠ k))) k = none := by
  induction l with
  | nil => rfl
  | cons e rest ih =>
    rw [List.filter_cons]
    by_cases he : e.1 = k
    · rw [if_neg (by simp [he]), ih]
    · rw [if_pos (by simp [he])]
      simp only [lookup, he, if_false, ih]

theorem get_delete_self (m : GoMap V) (k : Str) : (m.delete k).get k = none :=
  lookup_filter_eq m.entries k

theorem get_delete_ne (m : GoMap V) {k k' : Str} (h : k' ≠ k) :
    (m.delete k).get k' = m.get k' :=
  lookup_filter_ne m.entries k k' h

theorem get_delete (m : GoMap V) (k k' : Str) :
    (m.delete k).get k' = if k' = k then none else m.get k' := by
  by_cases h : k' = k
  · subst h
    rw [if_pos rfl, get_delete_self]
  · rw [if_neg h, get_delete_ne m h]

theorem get_set_self (m : GoMap V) (k : Str) (v : V) : (m.set k v).get k = some v := by
  simp [get, set, lookup]

theorem get_set_ne (m : GoMap V) {k k' : Str} (v : V) (h : k' ≠ k) :
    (m.set k v).get k' = m.get k' := by
  have : (m.set k v).get k' = (m.delete k).get k' := by
    simp [get, set, lookup, Ne.symm h]
  rw [this, get_delete_ne m h]

theorem lookup_isSome_iff (l : List (Str × V)) (k : Str) :
    (lookup l k).isSome ↔ k ∈ l.map Prod.fst := by
  induction l with
  | nil => simp [lookup]
  | cons e rest ih =>
    rw [List.map_cons, List.mem_cons]
    by_cases he : e.1 = k
    · simp only [lookup, he, if_true, Option.isSome_some, true_iff]
      exact Or.inl trivial
    · simp only [lookup, he, if_false, ih]
      constructor
      · exact Or.inr
      · rintro (h | h)
        · exact absurd h.symm he
        · exact h

theorem mem_of_lookup (l : List (Str × V)) (k : Str) (v : V) (h : lookup l k = some v) :
    (k, v) ∈ l := by
  induction l with
  | nil => simp [lookup] at h
  | cons e rest ih =>
    by_cases he : e.1 = k
    · simp only [lookup, he, if_true, Option.some.injEq] at h
      have : e = (k, v) := Prod.ext he h
      rw [this]
      exact List.mem_cons_self _ _
    · simp only [lookup, he, if_false] at h
      exact List.mem_cons_of_mem _ (ih h)

end GoMap

theorem keys_eq (m : GoMap Str) : keys m = m.entries.map Prod.fst := by
  have h : ∀ (l : List (Str × Str)) (acc : List Str),
      l.foldl (fun keys kv => keys ++ [kv.1]) acc = acc ++ l.map Prod.fst := by
    intro l
    induction l with
    | nil => simp
    | cons e rest ih => intro acc; simp [ih]
  simpa [keys, GoMap.range] using h m.entries []

theorem occurrences_of_nodup (l : List Str) (h : l.Nodup) (k : Str) :
    occurrences k l = if k ∈ l then 1 else 0 := by
  induction l with
  | nil => simp [occurrences]
  | cons a l ih =>
    obtain ⟨ha, hl⟩ := List.nodup_cons.mp h
    have ih := ih hl
    unfold occurrences at ih ⊢
    rw [List.filter_cons]
    by_cases hak : a = k
    · subst hak
      rw [if_pos (by simp), List.length_cons, ih, if_neg ha, if_pos (List.mem_cons_self _ _)]
    · rw [if_neg (by simp [hak]), ih]
      have : k ∈ a :: l ↔ k ∈ l := by
        rw [List.mem_cons]
        constructor
        · rintro (e | e)
          · exact absurd e.symm hak
          · exact e
        · exact Or.inr
      simp only [this]

/-- The slice `keys` returns has no name twice. -/
theorem keys_nodup (m : GoMap Str) : (keys m).Nodup := by
  rw [keys_eq]; exact m.nodup

/-- The slice `keys` returns holds the keys of the map and nothing else. -/
theorem mem_keys_iff (m : GoMap Str) (k : Str) : k ∈ keys m ↔ (m.get k).isSome := by
  rw [keys_eq, GoMap.get, GoMap.lookup_isSome_iff]

/-! ## The proxy handler, case by case -/

/-- The four ways through the proxy handler, by the first path segment, the table and the
parse of the base URL. -/
theorem noRouteHandler_cases (T : GoMap Str) (P : Str → Option URL) (C : Request → Str)
    (req : Request) :
    (firstSegment req = [] ∧
        noRouteHandler T P C req = .JSON 400 serviceNameRequired) ∨
    (firstSegment req ≠ [] ∧ T.get (firstSegment req) = none ∧
        noRouteHandler T P C req =
          .JSON 404 (serviceNotFound (firstSegment req) (keys T))) ∨
    (firstSegment req ≠ [] ∧ ∃ u, T.get (firstSegment req) = some u ∧ P u = none ∧
        noRouteHandler T P C req =
          .JSON 500 [("error".toList, .str "invalid backend URL".toList)]) ∨
    (firstSegment req ≠ [] ∧ ∃ u target, T.get (firstSegment req) = some u ∧
        P u = some target ∧
        noRouteHandler T P C req =
          .ServeHTTP target (forwarded C req target
            ("/".toList ++ Join (Split (Trim req.Path "/".toList) '/').tail "/".toList))) := by
  simp only [firstSegment, noRouteHandler]
  generalize Split (Trim req.Path "/".toList) '/' = parts
  rcases parts with _ | ⟨s, rest⟩
  · left
    simp [serviceNameRequired]
  · by_cases hs : s = []
    · left
      subst hs
      simp [serviceNameRequired]
    · right
      rcases hget : T.get s with _ | u
      · left
        simp [hs, hget, serviceNotFound]
      · right
        rcases hparse : P u with _ | target
        · left
          refine ⟨by simpa using hs, u, by simpa using hget, hparse, ?_⟩
          simp [hs, hget, hparse]
        · right
          refine ⟨by simpa using hs, u, target, by simpa using hget, hparse, ?_⟩
          cases rest with
          | nil => simp [hs, hget, hparse, forwarded, Join]
          | cons x xs => simp [hs, hget, hparse, forwarded]

/-! ## Paths of the form `/s/rest` -/

theorem mem_of_getLast?_cons {a c : Char} {s : Str} (hs : s ≠ [])
    (hc : (a :: s).getLast? = some c) : c ∈ s := by
  cases s with
  | nil => exact absurd rfl hs
  | cons b bs =>
    rw [List.getLast?_cons_cons] at hc
    exact List.mem_of_getLast?_eq_some hc

/-- Trimming `/s/rest`, for a non-empty `s` without "/": the leading "/" goes, and so do
the trailing "/" of `rest`, together with the "/" in front of `rest` when nothing of
`rest` is left. -/
theorem Trim_name_rest {s : Str} (rest : Str) (hs : s ≠ []) (hslash : '/' ∉ s) :
    Trim ('/' :: (s ++ '/' :: rest)) ['/'] =
      if TrimRight rest ['/'] = [] then s else s ++ '/' :: TrimRight rest ['/'] := by
  have hlast : ∀ c, ('/' :: s).getLast? = some c → c ∉ ['/'] := by
    intro c hc
    have hmem : c ∈ s := mem_of_getLast?_cons hs hc
    intro h
    rw [List.mem_singleton] at h
    exact hslash (h ▸ hmem)
  have hhead : ∀ (t : Str) (c : Char), (s ++ t).head? = some c → c ∉ ['/'] := by
    intro t c hc
    cases s with
    | nil => exact absurd rfl hs
    | cons a as =>
      simp only [List.cons_append, List.head?_cons, Option.some.injEq] at hc
      subst hc
      intro h
      rw [List.mem_singleton] at h
      exact hslash (h ▸ List.mem_cons_self _ _)
  have hone : TrimRight ['/'] ['/'] = [] := by decide
  have hstep : TrimRight ('/' :: rest) ['/'] =
      if TrimRight rest ['/'] = [] then [] else '/' :: TrimRight rest ['/'] := by
    have := TrimRight_append ['/'] rest ['/']
    rw [hone] at this
    simpa using this
  have hleft : ∀ t : Str, TrimLeft ('/' :: t) ['/'] = TrimLeft t ['/'] := by
    intro t
    simp [TrimLeft]
  unfold Trim
  have happ : '/' :: (s ++ '/' :: rest) = ('/' :: s) ++ ('/' :: rest) := by simp
  rw [happ, TrimRight_append, hstep]
  by_cases h : TrimRight rest ['/'] = []
  · rw [if_pos h, if_pos rfl, if_pos h, TrimRight_eq_self hlast, hleft]
    have := hhead [] 
    rw [List.append_nil] at this
    exact TrimLeft_eq_self this
  · rw [if_neg h, if_neg (by simp), if_neg h, List.cons_append, hleft]
    exact TrimLeft_eq_self (hhead _)

/-- Trimming `/s`, for a non-empty `s` without "/", leaves `s`. -/
theorem Trim_name {s : Str} (hs : s ≠ []) (hslash : '/' ∉ s) : Trim ('/' :: s) ['/'] = s := by
  have hne : ∀ c, c ∈ s → c ∉ ['/'] := by
    intro c hc h
    rw [List.mem_singleton] at h
    exact hslash (h ▸ hc)
  have hlast : ∀ c, ('/' :: s).getLast? = some c → c ∉ ['/'] := by
    intro c hc
    exact hne c (mem_of_getLast?_cons hs hc)
  unfold Trim
  rw [TrimRight_eq_self hlast]
  have hleft : TrimLeft ('/' :: s) ['/'] = TrimLeft s ['/'] := by simp [TrimLeft]
  rw [hleft]
  apply TrimLeft_eq_self
  intro c hc
  exact hne c (List.mem_of_mem_head? hc)

/-- The proxy handler on a path `/s/rest`, for any table in which the segment `s` (non-empty,
without "/") is registered with a base URL that parses: the first segment is `s`, the
request is forwarded, and the outbound path is "/" followed by `rest` without its
trailing "/". -/
theorem forward_name_rest (T : GoMap Str) (P : Str → Option URL) (C : Request → Str)
    {s u : Str} {target : URL} (hreg : T.get s = some u) (hparse : P u = some target)
    (hs : s ≠ []) (hslash : '/' ∉ s) (req : Request) (rest : Str)
    (hpath : req.Path = "/".toList ++ s ++ "/".toList ++ rest) :
    firstSegment req = s ∧
      Join (Split (Trim req.Path "/".toList) '/').tail "/".toList = TrimRight rest "/".toList ∧
      noRouteHandler T P C req =
        .ServeHTTP target (forwarded C req target
          ("/".toList ++ Join (Split (Trim req.Path "/".toList) '/').tail "/".toList)) := by
  have hshape : req.Path = '/' :: (s ++ '/' :: rest) := by simpa using hpath
  have htrim := Trim_name_rest rest hs hslash
  have hsplit : Split (Trim req.Path "/".toList) '/' =
      s :: (if TrimRight rest ['/'] = [] then [] else Split (TrimRight rest ['/']) '/') := by
    rw [hshape]
    show Split (Trim ('/' :: (s ++ '/' :: rest)) ['/']) '/' = _
    rw [htrim]
    by_cases h : TrimRight rest ['/'] = []
    · rw [if_pos h, if_pos h, Split_of_not_mem hslash]
    · rw [if_neg h, if_neg h, Split_append_sep _ hslash]
  have hfirst : firstSegment req = s := by
    unfold firstSegment
    rw [hsplit]
    rfl
  have hjoin : Join (Split (Trim req.Path "/".toList) '/').tail "/".toList =
      TrimRight rest "/".toList := by
    rw [hsplit, List.tail_cons]
    show Join _ ['/'] = TrimRight rest ['/']
    by_cases h : TrimRight rest ['/'] = []
    · rw [if_pos h, h]; rfl
    · rw [if_neg h, Join_Split]
  refine ⟨hfirst, hjoin, ?_⟩
  rcases noRouteHandler_cases T P C req with h | h | h | h
  · exact absurd (hfirst ▸ h.1) hs
  · rw [hfirst, hreg] at h
    exact absurd h.2.1 (by simp)
  · obtain ⟨_, u', hu', hp', _⟩ := h
    rw [hfirst, hreg] at hu'
    cases hu'
    rw [hparse] at hp'
    exact absurd hp' (by simp)
  · obtain ⟨_, u', t', hu', hp', hout⟩ := h
    rw [hfirst, hreg] at hu'
    cases hu'
    rw [hparse] at hp'
    cases hp'
    exact hout

/-- The proxy handler on a path `/s`, under the same conditions: forwarded with the outbound
path "/". -/
theorem forward_name (T : GoMap Str) (P : Str → Option URL) (C : Request → Str)
    {s u : Str} {target : URL} (hreg : T.get s = some u) (hparse : P u = some target)
    (hs : s ≠ []) (hslash : '/' ∉ s) (req : Request)
    (hpath : req.Path = "/".toList ++ s) :
    noRouteHandler T P C req = .ServeHTTP target (forwarded C req target "/".toList) := by
  have hshape : req.Path = '/' :: s := by simpa using hpath
  have hsplit : Split (Trim req.Path "/".toList) '/' = [s] := by
    rw [hshape]
    show Split (Trim ('/' :: s) ['/']) '/' = _
    rw [Trim_name hs hslash, Split_of_not_mem hslash]
  have hfirst : firstSegment req = s := by
    unfold firstSegment
    rw [hsplit]
    rfl
  rcases noRouteHandler_cases T P C req with h | h | h | h
  · exact absurd (hfirst ▸ h.1) hs
  · rw [hfirst, hreg] at h
    exact absurd h.2.1 (by simp)
  · obtain ⟨_, u', hu', hp', _⟩ := h
    rw [hfirst, hreg] at hu'
    cases hu'
    rw [hparse] at hp'
    exact absurd hp' (by simp)
  · obtain ⟨_, u', t', hu', hp', hout⟩ := h
    rw [hfirst, hreg] at hu'
    cases hu'
    rw [hparse] at hp'
    cases hp'
    rw [hout, hsplit]
    rfl

/-- Every name registered in the table of `main` is a path segment: not empty, no "/". -/
theorem services_keys_segments {s u : Str} (hreg : services.get s = some u) :
    s ≠ [] ∧ '/' ∉ s := by
  simp only [services, GoMap.get, GoMap.lookup] at hreg
  split_ifs at hreg with h1 h2 h3
  · subst h1; decide
  · subst h2; decide
  · subst h3; decide

/-! ## The middleware chain -/

/-- Behind a chain that lets the request through, the handler's outcome is the outcome. -/
theorem chain_of_pass {req : Request} (h : middleware req = none) (handler : Outcome) :
    chain req handler = handler := by
  unfold chain
  rw [h]

/-- The chain forwards nothing by itself: a handler that does not forward, behind the
chain, does not forward. -/
theorem chain_ne_ServeHTTP (req : Request) {handler : Outcome}
    (h : ∀ target out, handler ≠ .ServeHTTP target out) (target : URL) (out : Request) :
    chain req handler ≠ .ServeHTTP target out := by
  unfold chain
  cases middleware req with
  | none => exact h target out
  | some code => intro h'; cases h'

/-- The middleware chain on four requests: no `Origin` header and an allowed origin are let
through; a foreign origin is answered 403, also on `POST /`; a preflight is answered 204,
also from an allowed origin, and the proxy handler does not run. -/
theorem middleware_examples :
    middleware (sampleRequest "GET" "/user/profile/7") = none ∧
      middleware (sampleRequestFrom "http://localhost:5174" "POST" "/task/1") = none ∧
      handleHTTPRequest services sampleParse sampleClientIP
          (sampleRequestFrom "http://evil.example" "POST" "/") =
        .AbortWithStatus 403 ∧
      handleHTTPRequest services sampleParse sampleClientIP
          (sampleRequestFrom "http://localhost:5173" "OPTIONS" "/user/x") =
        .AbortWithStatus 204 ∧
      handleHTTPRequest services sampleParse sampleClientIP
          (sampleRequestFrom "http://evil.example" "OPTIONS" "/user/x") =
        .AbortWithStatus 204 := by
  decide

/-! ## The claims -/

/-- C1. For every service name `s` registered in the service table with base URL `u`, when
`u` parses to `target`: on every inbound path `/s/rest` the first path segment is `s` and
the proxy handler forwards to `target` with the outbound path "/" followed by the
segments after the first joined with "/" (in terms of `rest`: "/" followed by `rest`
without its trailing "/", which the trimming removes before the split); and on the inbound
path `/s` it forwards to `target` with the outbound path exactly "/". -/
theorem C1_service_name_stripped (P : Str → Option URL) (C : Request → Str)
    (s u : Str) (target : URL)
    (hreg : services.get s = some u) (hparse : P u = some target) :
    (∀ (req : Request) (rest : Str), req.Path = "/".toList ++ s ++ "/".toList ++ rest →
        firstSegment req = s ∧
        noRouteHandler services P C req =
          .ServeHTTP target (forwarded C req target
            ("/".toList ++ Join (Split (Trim req.Path "/".toList) '/').tail "/".toList)) ∧
        Join (Split (Trim req.Path "/".toList) '/').tail "/".toList =
          TrimRight rest "/".toList) ∧
    (∀ req : Request, req.Path = "/".toList ++ s →
        noRouteHandler services P C req =
          .ServeHTTP target (forwarded C req target "/".toList)) := by
  obtain ⟨hs, hslash⟩ := services_keys_segments hreg
  constructor
  · intro req rest hpath
    obtain ⟨h1, h2, h3⟩ := forward_name_rest services P C hreg hparse hs hslash req rest hpath
    exact ⟨h1, h3, h2⟩
  · intro req hpath
    exact forward_name services P C hreg hparse hs hslash req hpath

/-- C1 at the request `GET /user/profile/7` (and `GET /user`) on the table of `main`. -/
theorem C1_service_name_stripped_witness :
    noRouteHandler services sampleParse sampleClientIP (sampleRequest "GET" "/user/profile/7") =
        .ServeHTTP ⟨"http".toList, "localhost:8081".toList, "/user".toList⟩
          (forwarded sampleClientIP (sampleRequest "GET" "/user/profile/7")
            ⟨"http".toList, "localhost:8081".toList, "/user".toList⟩ "/profile/7".toList) ∧
      noRouteHandler services sampleParse sampleClientIP (sampleRequest "GET" "/user") =
        .ServeHTTP ⟨"http".toList, "localhost:8081".toList, "/user".toList⟩
          (forwarded sampleClientIP (sampleRequest "GET" "/user")
            ⟨"http".toList, "localhost:8081".toList, "/user".toList⟩ "/".toList) :=
  have h := C1_service_name_stripped sampleParse sampleClientIP "user".toList
    "http://localhost:8081/user".toList
    ⟨"http".toList, "localhost:8081".toList, "/user".toList⟩ (by decide) (by decide)
  ⟨(h.1 (sampleRequest "GET" "/user/profile/7") "profile/7".toList (by decide)).2.1,
    h.2 (sampleRequest "GET" "/user") (by decide)⟩

/-- C4. For every backend response, the `ModifyResponse` hook reports no error and yields
a response whose header holds none of the five CORS headers, whatever the backend set,
while every other header keeps its values and the status code and body are untouched. -/
theorem C4_cors_headers_removed (resp : Response) :
    ∃ resp', ModifyResponse resp = .ok resp' ∧
      (∀ k, k ∈ corsHeaders → resp'.Header.get k = none) ∧
      (∀ k, k ∉ corsHeaders → resp'.Header.get k = resp.Header.get k) ∧
      resp'.StatusCode = resp.StatusCode ∧ resp'.Body = resp.Body := by
  refine ⟨_, rfl, ?_, ?_, rfl, rfl⟩
  · intro k hk
    simp only [Header.Del, GoMap.get_delete]
    simp only [corsHeaders, List.mem_cons, List.mem_singleton, List.not_mem_nil, or_false] at hk
    rcases hk with h | h | h | h | h <;> subst h <;> simp
  · intro k hk
    simp only [corsHeaders, List.mem_cons, List.mem_singleton, List.not_mem_nil, or_false,
      not_or] at hk
    obtain ⟨h1, h2, h3, h4, h5⟩ := hk
    simp only [Header.Del, GoMap.get_delete, if_neg h1, if_neg h2, if_neg h3, if_neg h4,
      if_neg h5]

/-- C4 on a backend response that sets two CORS headers and a content type. -/
theorem C4_cors_headers_removed_witness :
    ModifyResponse sampleResponse =
      .ok { sampleResponse with
            Header := ⟨[("Content-Type".toList, ["application/json".toList])], by decide⟩ } ∧
    ∃ resp', ModifyResponse sampleResponse = .ok resp' ∧
      (∀ k, k ∈ corsHeaders → resp'.Header.get k = none) ∧
      (∀ k, k ∉ corsHeaders → resp'.Header.get k = sampleResponse.Header.get k) ∧
      resp'.StatusCode = sampleResponse.StatusCode ∧ resp'.Body = sampleResponse.Body :=
  ⟨rfl, C4_cors_headers_removed sampleResponse⟩

/-- C2. For every proxy-candidate request whose first path segment is non-empty and is not
a key of the service table, the handler answers 404 (so nothing is forwarded) with
`requested` equal to that segment and `available` equal to the slice `keys` returns, in
which every key of the table occurs exactly once and nothing else occurs. -/
theorem C2_unknown_service_not_found (T : GoMap Str) (P : Str → Option URL)
    (C : Request → Str) (req : Request)
    (hne : firstSegment req ≠ []) (hunknown : T.get (firstSegment req) = none) :
    noRouteHandler T P C req =
        .JSON 404
          [ ("error".toList, .str "service not found".toList),
            ("requested".toList, .str (firstSegment req)),
            ("available".toList, .strs (keys T)) ] ∧
      (keys T).Nodup ∧
      (∀ k, k ∈ keys T ↔ (T.get k).isSome) ∧
      (∀ k, occurrences k (keys T) = if (T.get k).isSome then 1 else 0) := by
  refine ⟨?_, keys_nodup T, mem_keys_iff T, ?_⟩
  · rcases noRouteHandler_cases T P C req with h | h | h | h
    · exact absurd h.1 hne
    · exact h.2.2
    · obtain ⟨_, u, hu, _⟩ := h
      rw [hunknown] at hu
      exact absurd hu (by simp)
    · obtain ⟨_, u, t, hu, _⟩ := h
      rw [hunknown] at hu
      exact absurd hu (by simp)
  · intro k
    rw [occurrences_of_nodup _ (keys_nodup T)]
    simp only [mem_keys_iff]

/-- C2 at the request `GET /unknown/x` on the table of `main`. -/
theorem C2_unknown_service_not_found_witness :
    noRouteHandler services sampleParse sampleClientIP (sampleRequest "GET" "/unknown/x") =
      .JSON 404
        [ ("error".toList, .str "service not found".toList),
          ("requested".toList, .str "unknown".toList),
          ("available".toList, .strs ["user".toList, "sprint".toList, "task".toList]) ] :=
  (C2_unknown_service_not_found services sampleParse sampleClientIP
    (sampleRequest "GET" "/unknown/x") (by decide) (by decide)).1

/-- C5. For every request the proxy handler forwards, the request handed to the reverse
proxy has the host of the parsed target as its `Host`, that same single value as
`X-Forwarded-Host`, the single value "http" as `X-Forwarded-Proto` and, as
`X-Forwarded-For`, the single value `ClientIP` returns (on the request as rewritten up to
that line); whatever the client sent under these three names is replaced, and every other
header is passed on as it came. -/
theorem C5_host_and_forwarded_headers (T : GoMap Str) (P : Str → Option URL)
    (C : Request → Str) (req out : Request) (target : URL)
    (hfwd : noRouteHandler T P C req = .ServeHTTP target out) :
    out.Host = target.Host ∧
      out.Header.get "X-Forwarded-Host".toList = some [target.Host] ∧
      out.Header.get "X-Forwarded-Proto".toList = some ["http".toList] ∧
      out.Header.get "X-Forwarded-For".toList =
        some [C { req with
                  Path := out.Path
                  Host := target.Host
                  Header :=
                    (req.Header.Set "X-Forwarded-Host".toList target.Host).Set
                      "X-Forwarded-Proto".toList "http".toList }] ∧
      (∀ k, k ∉ ["X-Forwarded-Host".toList, "X-Forwarded-Proto".toList,
            "X-Forwarded-For".toList] →
          out.Header.get k = req.Header.get k) := by
  rcases noRouteHandler_cases T P C req with h | h | h | h
  · rw [h.2] at hfwd; cases hfwd
  · rw [h.2.2] at hfwd; cases hfwd
  · obtain ⟨_, u, _, _, h⟩ := h
    rw [h] at hfwd; cases hfwd
  · obtain ⟨_, u, t, _, _, h⟩ := h
    rw [h] at hfwd
    cases hfwd
    refine ⟨rfl, ?_, ?_, ?_, ?_⟩
    · simp only [forwarded, Header.Set]
      rw [GoMap.get_set_ne _ _ (by decide), GoMap.get_set_ne _ _ (by decide),
        GoMap.get_set_self]
    · simp only [forwarded, Header.Set]
      rw [GoMap.get_set_ne _ _ (by decide), GoMap.get_set_self]
    · simp only [forwarded, Header.Set]
      rw [GoMap.get_set_self]
    · intro k hk
      simp only [List.mem_cons, List.mem_singleton, List.not_mem_nil, or_false, not_or] at hk
      obtain ⟨h1, h2, h3⟩ := hk
      simp only [forwarded, Header.Set]
      rw [GoMap.get_set_ne _ _ h3, GoMap.get_set_ne _ _ h2, GoMap.get_set_ne _ _ h1]

/-- C5 at `GET /user/profile/7` from 10.0.0.7, sent with an `X-Forwarded-For` header of two
values: the forwarded request carries the single value of the resolved address. -/
theorem C5_host_and_forwarded_headers_witness :
    (forwarded sampleClientIP (sampleRequest "GET" "/user/profile/7")
        ⟨"http".toList, "localhost:8081".toList, "/user".toList⟩ "/profile/7".toList).Host =
        "localhost:8081".toList ∧
      (forwarded sampleClientIP (sampleRequest "GET" "/user/profile/7")
        ⟨"http".toList, "localhost:8081".toList, "/user".toList⟩
        "/profile/7".toList).Header.get "X-Forwarded-For".toList = some ["10.0.0.7".toList] :=
  have h := C5_host_and_forwarded_headers services sampleParse sampleClientIP
    (sampleRequest "GET" "/user/profile/7")
    (forwarded sampleClientIP (sampleRequest "GET" "/user/profile/7")
      ⟨"http".toList, "localhost:8081".toList, "/user".toList⟩ "/profile/7".toList)
    ⟨"http".toList, "localhost:8081".toList, "/user".toList⟩ (by decide)
  ⟨h.1, h.2.2.2.1⟩

/-- C7. Invariant of the proxy handler: whenever it forwards a request, the first path
segment is non-empty and is a key of the service table, and the target is the parse of
the base URL the table holds for that key (an entry of the table); and whenever the first
segment is empty the handler answers 400 instead, before any target is built. -/
theorem C7_forwarding_invariant (T : GoMap Str) (P : Str → Option URL) (C : Request → Str)
    (req : Request) :
    (∀ target out, noRouteHandler T P C req = .ServeHTTP target out →
        firstSegment req ≠ [] ∧
          ∃ u, T.get (firstSegment req) = some u ∧ (firstSegment req, u) ∈ T.entries ∧
            P u = some target) ∧
      (firstSegment req = [] →
        noRouteHandler T P C req =
          .JSON 400 [("error".toList, .str "service name required".toList)]) := by
  rcases noRouteHandler_cases T P C req with h | h | h | h
  · refine ⟨?_, fun _ => h.2⟩
    intro target out hfwd
    rw [h.2] at hfwd; cases hfwd
  · refine ⟨?_, fun he => absurd he h.1⟩
    intro target out hfwd
    rw [h.2.2] at hfwd; cases hfwd
  · obtain ⟨hne, u, _, _, h⟩ := h
    refine ⟨?_, fun he => absurd he hne⟩
    intro target out hfwd
    rw [h] at hfwd; cases hfwd
  · obtain ⟨hne, u, t, hu, hp, h⟩ := h
    refine ⟨?_, fun he => absurd he hne⟩
    intro target out hfwd
    rw [h] at hfwd
    cases hfwd
    exact ⟨hne, u, hu, GoMap.mem_of_lookup _ _ _ hu, hp⟩

/-- C7 at `GET /user/profile/7` (forwarded: the segment "user" is a key) and at `POST /`
(empty first segment: 400). -/
theorem C7_forwarding_invariant_witness :
    (firstSegment (sampleRequest "GET" "/user/profile/7") ≠ [] ∧
        ∃ u, services.get (firstSegment (sampleRequest "GET" "/user/profile/7")) = some u ∧
          (firstSegment (sampleRequest "GET" "/user/profile/7"), u) ∈ services.entries ∧
          sampleParse u = some ⟨"http".toList, "localhost:8081".toList, "/user".toList⟩) ∧
      noRouteHandler services sampleParse sampleClientIP (sampleRequest "POST" "/") =
        .JSON 400 [("error".toList, .str "service name required".toList)] :=
  ⟨(C7_forwarding_invariant services sampleParse sampleClientIP
      (sampleRequest "GET" "/user/profile/7")).1
      ⟨"http".toList, "localhost:8081".toList, "/user".toList⟩
      (forwarded sampleClientIP (sampleRequest "GET" "/user/profile/7")
        ⟨"http".toList, "localhost:8081".toList, "/user".toList⟩ "/profile/7".toList)
      (by decide),
    (C7_forwarding_invariant services sampleParse sampleClientIP
      (sampleRequest "POST" "/")).2 (by decide)⟩

/-- C9. Prefix stripping removes the service name and nothing else: when the trimmed path
`t` contains a "/" and its first segment `s` is registered with a base URL that parses,
the request is forwarded with an outbound path `q` such that `t = s ++ q`; `q` starts
with "/" and `s` contains no "/". -/
theorem C9_strip_removes_only_the_name (T : GoMap Str) (P : Str → Option URL)
    (C : Request → Str) (req : Request) (s u : Str) (target : URL)
    (hslash : '/' ∈ Trim req.Path "/".toList) (hfirst : firstSegment req = s)
    (hreg : T.get s = some u) (hparse : P u = some target) :
    ∃ out, noRouteHandler T P C req = .ServeHTTP target out ∧
      Trim req.Path "/".toList = s ++ out.Path ∧
      out.Path.head? = some '/' ∧ '/' ∉ s := by
  have hjoin := Join_Split (Trim req.Path "/".toList) '/'
  have hlen := (Split_length_gt_one_iff (Trim req.Path "/".toList) '/').mpr hslash
  have hnot := Split_not_mem (Trim req.Path "/".toList) '/'
  have hhead := Split_head_eq_nil_iff (Trim req.Path "/".toList) '/'
  have htrim := Trim_head req.Path "/".toList
  have hcases := noRouteHandler_cases T P C req
  unfold firstSegment at hfirst hcases
  rcases hparts : Split (Trim req.Path "/".toList) '/' with _ | ⟨a, rest⟩
  · exact absurd hparts (Split_ne_nil _ _)
  · rw [hparts] at hjoin hlen hnot hhead hfirst hcases
    simp only [List.headD_cons] at hfirst hcases
    subst hfirst
    cases rest with
    | nil => simp at hlen
    | cons b bs =>
      have hne : a ≠ [] := by
        intro ha
        rcases hhead.mp (by simp [ha]) with h | h
        · rw [h] at hslash
          simp at hslash
        · exact htrim '/' h (by decide)
      have hq : Trim req.Path "/".toList = a ++ ("/".toList ++ Join (b :: bs) "/".toList) := by
        rw [← hjoin]
        simp [Join]
      rcases hcases with h | h | h | h
      · exact absurd h.1 hne
      · rw [hreg] at h
        exact absurd h.2.1 (by simp)
      · obtain ⟨_, u', hu', hp', _⟩ := h
        rw [hreg] at hu'
        cases hu'
        rw [hparse] at hp'
        exact absurd hp' (by simp)
      · obtain ⟨_, u', t', hu', hp', hout⟩ := h
        rw [hreg] at hu'
        cases hu'
        rw [hparse] at hp'
        cases hp'
        refine ⟨_, hout, ?_, ?_, hnot a (List.mem_cons_self _ _)⟩
        · exact hq
        · simp [forwarded]

/-- C9 at `GET /user//x`: the trimmed path "user//x" is "user" followed by the outbound
path "//x", the empty segment kept. -/
theorem C9_strip_removes_only_the_name_witness :
    noRouteHandler services sampleParse sampleClientIP (sampleRequest "GET" "/user//x") =
        .ServeHTTP ⟨"http".toList, "localhost:8081".toList, "/user".toList⟩
          (forwarded sampleClientIP (sampleRequest "GET" "/user//x")
            ⟨"http".toList, "localhost:8081".toList, "/user".toList⟩ "//x".toList) ∧
    ∃ out, noRouteHandler services sampleParse sampleClientIP (sampleRequest "GET" "/user//x") =
        .ServeHTTP ⟨"http".toList, "localhost:8081".toList, "/user".toList⟩ out ∧
      Trim (sampleRequest "GET" "/user//x").Path "/".toList = "user".toList ++ out.Path ∧
      out.Path.head? = some '/' ∧ '/' ∉ "user".toList :=
  ⟨by decide,
    C9_strip_removes_only_the_name services sampleParse sampleClientIP
      (sampleRequest "GET" "/user//x") "user".toList "http://localhost:8081/user".toList
      ⟨"http".toList, "localhost:8081".toList, "/user".toList⟩
      (by decide) (by decide) (by decide) (by decide)⟩

/-! ## The router -/

/-- The trailing-slash recommendation fires on three paths only. -/
theorem tsr_eq_true_iff (path : Str) :
    tsr path = true ↔ path ∈ ["".toList, "//".toList, "/health/".toList] := by
  constructor
  · intro h
    simp only [tsr, getRoutes, Bool.and_eq_true, Bool.or_eq_true, decide_eq_true_eq,
      List.any_cons, List.any_nil, Bool.or_false, List.mem_cons, List.mem_singleton,
      List.not_mem_nil, or_false] at h
    obtain ⟨_, (h | h) | (h | h)⟩ := h
    · exfalso
      have := congrArg List.getLast? h
      simp at this
    · have : path = [] := by
        cases path with
        | nil => rfl
        | cons c cs =>
          have := congrArg List.length h
          simp at this
      subst this
      decide
    · subst h; decide
    · subst h; decide
  · intro h
    simp only [List.mem_cons, List.mem_singleton, List.not_mem_nil, or_false] at h
    rcases h with h | h | h <;> subst h <;> decide

/-- C10. The routing outcome of the proxy handler (the 400, the 404 with its requested
name, or the forward with its target and outbound path) depends on the inbound path only
through its trimmed form: two requests whose paths trim to the same string get the same
routing outcome, and replacing the path of a request by another one with the same trimmed
form changes nothing at all in what the handler does. -/
theorem C10_outcome_depends_on_trimmed_path (T : GoMap Str) (P : Str → Option URL)
    (C : Request → Str) (r1 r2 : Request)
    (htrim : Trim r1.Path "/".toList = Trim r2.Path "/".toList) :
    (noRouteHandler T P C r1).routing = (noRouteHandler T P C r2).routing ∧
      noRouteHandler T P C { r2 with Path := r1.Path } = noRouteHandler T P C r2 := by
  constructor
  · simp only [noRouteHandler, htrim]
    generalize Split (Trim r2.Path "/".toList) '/' = parts
    split_ifs <;> try rfl
    all_goals
      cases T.get (parts.headD []) with
      | none => rfl
      | some u =>
        dsimp only
        cases P u with
        | none => rfl
        | some target => rfl
  · simp only [noRouteHandler, htrim]

/-- C10 at the paths of the claim: `/user/a/` and `//user/a` are routed as `/user/a` is,
to the backend of "user" with the outbound path `/a`; `/user/` is routed with the outbound
path "/". -/
theorem C10_outcome_depends_on_trimmed_path_witness :
    (noRouteHandler services sampleParse sampleClientIP (sampleRequest "GET" "/user/a/")).routing =
        (noRouteHandler services sampleParse sampleClientIP
          (sampleRequest "GET" "/user/a")).routing ∧
      (noRouteHandler services sampleParse sampleClientIP (sampleRequest "GET" "//user/a")).routing =
        (noRouteHandler services sampleParse sampleClientIP
          (sampleRequest "GET" "/user/a")).routing ∧
      (noRouteHandler services sampleParse sampleClientIP (sampleRequest "GET" "/user/a")).routing =
        .forward ⟨"http".toList, "localhost:8081".toList, "/user".toList⟩ "/a".toList ∧
      (noRouteHandler services sampleParse sampleClientIP (sampleRequest "GET" "/user/")).routing =
        .forward ⟨"http".toList, "localhost:8081".toList, "/user".toList⟩ "/".toList :=
  ⟨(C10_outcome_depends_on_trimmed_path services sampleParse sampleClientIP
      (sampleRequest "GET" "/user/a/") (sampleRequest "GET" "/user/a") (by decide)).1,
    (C10_outcome_depends_on_trimmed_path services sampleParse sampleClientIP
      (sampleRequest "GET" "//user/a") (sampleRequest "GET" "/user/a") (by decide)).1,
    by decide, by decide⟩

/-- C3, counterexample: the request `GET /` has a path that is empty after trimming, and
the gateway answers it with status 200 and the welcome object, not with the 400. -/
theorem C3_counterexample :
    Trim (sampleRequest "GET" "/").Path "/".toList = [] ∧
      handleHTTPRequest services sampleParse sampleClientIP (sampleRequest "GET" "/") =
        .JSON 200
          [ ("message".toList, .str "Welcome to API Gateway".toList),
            ("usage".toList, .str "POST/GET /<service-name>/path".toList),
            ("example".toList, .str "/user-service/profile".toList),
            ("health".toList, .str "/health".toList),
            ("services".toList, .strs ["user".toList, "sprint".toList, "task".toList]) ] ∧
      handleHTTPRequest services sampleParse sampleClientIP (sampleRequest "GET" "/") ≠
        .JSON 400 [("error".toList, .str "service name required".toList)] := by
  decide

/-- C3, amended. For every request whose path is empty after trimming leading and
trailing "/": the proxy handler, whenever it is the one that handles the request, answers
with status 400 and the body `error: service name required`; that is the gateway's answer
whenever the middleware chain lets the request through (see `middleware_eq_none_iff`) and
the method is not GET, or the path is none of "/", "//" and the empty path; and whatever
the request, nothing is forwarded and no target is built. -/
theorem C3_empty_service_name_rejected (T : GoMap Str) (P : Str → Option URL)
    (C : Request → Str) (req : Request) (hempty : Trim req.Path "/".toList = []) :
    noRouteHandler T P C req =
        .JSON 400 [("error".toList, .str "service name required".toList)] ∧
      (middleware req = none → req.Method ≠ "GET".toList →
        handleHTTPRequest T P C req =
          .JSON 400 [("error".toList, .str "service name required".toList)]) ∧
      (middleware req = none → req.Path ∉ ["/".toList, "//".toList, "".toList] →
        handleHTTPRequest T P C req =
          .JSON 400 [("error".toList, .str "service name required".toList)]) ∧
      (∀ target out, handleHTTPRequest T P C req ≠ .ServeHTTP target out) := by
  have hhandler : noRouteHandler T P C req =
      .JSON 400 [("error".toList, .str "service name required".toList)] := by
    simp only [noRouteHandler, hempty]
    rfl
  refine ⟨hhandler, ?_, ?_, ?_⟩
  · intro hpass hm
    unfold handleHTTPRequest
    rw [if_neg hm, hhandler, chain_of_pass hpass]
  · intro hpass hp
    simp only [List.mem_cons, List.mem_singleton, List.not_mem_nil, or_false, not_or] at hp
    obtain ⟨h1, h2, h3⟩ := hp
    have hhealth : req.Path ≠ "/health".toList := by
      intro h
      rw [h] at hempty
      exact absurd hempty (by decide)
    have ht : ¬ tsr req.Path = true := by
      rw [tsr_eq_true_iff]
      simp only [List.mem_cons, List.mem_singleton, List.not_mem_nil, or_false, not_or]
      refine ⟨h3, h2, ?_⟩
      intro h
      rw [h] at hempty
      exact absurd hempty (by decide)
    unfold handleHTTPRequest
    by_cases hm : req.Method = "GET".toList
    · rw [if_pos hm, if_neg hhealth, if_neg h1, if_neg ht, hhandler, chain_of_pass hpass]
    · rw [if_neg hm, hhandler, chain_of_pass hpass]
  · intro target out
    have hjson : ∀ (code : Nat) (obj : H) (t : URL) (o : Request),
        Outcome.JSON code obj ≠ .ServeHTTP t o := by
      intro code obj t o h
      cases h
    unfold handleHTTPRequest
    split_ifs
    · exact chain_ne_ServeHTTP req (hjson _ _) target out
    · exact chain_ne_ServeHTTP req (hjson _ _) target out
    · unfold redirectTrailingSlash
      split_ifs <;> (intro h; cases h)
    · rw [hhandler]
      exact chain_ne_ServeHTTP req (hjson _ _) target out
    · rw [hhandler]
      exact chain_ne_ServeHTTP req (hjson _ _) target out

/-- C3, amended, at `POST /` and at `GET ///`, both sent without an `Origin` header. -/
theorem C3_empty_service_name_rejected_witness :
    handleHTTPRequest services sampleParse sampleClientIP (sampleRequest "POST" "/") =
        .JSON 400 [("error".toList, .str "service name required".toList)] ∧
      handleHTTPRequest services sampleParse sampleClientIP (sampleRequest "GET" "///") =
        .JSON 400 [("error".toList, .str "service name required".toList)] :=
  ⟨(C3_empty_service_name_rejected services sampleParse sampleClientIP
      (sampleRequest "POST" "/") (by decide)).2.1 (by decide) (by decide),
    (C3_empty_service_name_rejected services sampleParse sampleClientIP
      (sampleRequest "GET" "///") (by decide)).2.2.1 (by decide) (by decide)⟩

end Gateway
